import Mathlib

/-!
Verification of the Drop-Box distributed storage system
(`src/distributed_storage.py`).

Shallow embedding conventions:
* File contents and chunk payloads (Python `bytes`) are `List Nat`.
* The SHA-256 hex digest (`hashlib.sha256(...).hexdigest()`) is modelled
  as an abstract parameter `hashB : List Nat → String`; no claim depends
  on properties of the hash beyond it being a function.
* A storage node's disk is a map from path to file contents
  (`String → Option (List Nat)`); `none` means the path does not exist.
* Python `dict` values that the claims inspect are modelled as follows:
  the per-file chunk index `Dict[int, Tuple[str, str]]` is an association
  list updated with Python assignment semantics (`assocSet`: in-place
  update when the key is present, append otherwise); the outer
  `metadata: Dict[str, ...]` and the disk are plain functions.
* The wire protocol (`send_request`) is a network effect: it is modelled
  by an oracle argument giving each node's response to a request.
  Response dictionaries `{'status': 'success'|'error', ...}` become the
  inductives `Resp` / `RetResp`; fields that the coordinator only prints
  (such as the responding `node_id`) are elided.
* Fallible disk operations are modelled by explicit success flags
  (`writeOk` for the `open/write` in `store_chunk`, `removeOk` for
  `os.remove` in `delete_file`); Python exception messages `str(e)`
  become fixed strings.
-/

namespace DropBox

/-- The comparison used by `sorted(chunks, key=lambda x: x[0])`:
Python's stable sort ordered by the first tuple component. -/
def keyLe (a b : Nat × List Nat) : Bool := decide (a.1 ≤ b.1)

/-- The read loop of `FilePartitioner.partition_file`: repeatedly
`f.read(chunk_size)`, stopping on an empty read, numbering chunks with the
running counter `chunk_id`.  `f.read(n)` on a stream positioned at `data`
returns `data.take n`, leaving `data.drop n`; it returns `b''` (stopping
the loop) exactly when `n = 0` or the stream is exhausted. -/
def partitionFrom (hashB : List Nat → String) (chunkSize : Nat) (chunkId : Nat)
    (data : List Nat) : List (Nat × List Nat × String) :=
  if h : chunkSize = 0 ∨ data = [] then []
  else
    (chunkId, data.take chunkSize, hashB (data.take chunkSize)) ::
      partitionFrom hashB chunkSize (chunkId + 1) (data.drop chunkSize)
termination_by data.length
decreasing_by
  push_neg at h
  have h1 : 0 < data.length := List.length_pos.mpr h.2
  simp only [List.length_drop]
  omega

/-- `FilePartitioner.partition_file`: split `data` into `chunkSize`-byte
windows, returning `(chunk_id, chunk_data, chunk_hash)` triples with
`chunk_id` counting from 0. -/
def partition_file (hashB : List Nat → String) (chunkSize : Nat)
    (data : List Nat) : List (Nat × List Nat × String) :=
  partitionFrom hashB chunkSize 0 data

/-- `FilePartitioner.reassemble_file`: sort the `(chunk_id, chunk_data)`
pairs by id (Python's `sorted` is a stable merge sort) and write the
payloads to the output file in that order.  The returned list is the byte
content of the written output file. -/
def reassemble_file (chunks : List (Nat × List Nat)) : List Nat :=
  ((chunks.mergeSort keyLe).map Prod.snd).flatten

/-- `FilePartitioner.verify_chunk`: recompute the digest and compare. -/
def verify_chunk (hashB : List Nat → String) (chunk_data : List Nat)
    (expected_hash : String) : Bool :=
  hashB chunk_data == expected_hash

/-- A storage-node response dictionary, `{'status': 'success'|'error',
'message': ...}`.  The `node_id` field of a successful store response is
elided: the coordinator never reads it. -/
inductive Resp where
  | success (message : String)
  | error (message : String)
deriving DecidableEq, Repr

/-- Whether a response dictionary has `response['status'] == 'error'`. -/
def Resp.isError : Resp → Bool
  | .error _ => true
  | .success _ => false

/-- Whether a response dictionary has `response['status'] == 'success'`. -/
def Resp.isSuccess : Resp → Bool
  | .error _ => false
  | .success _ => true

/-- The in-memory and on-disk state of one `StorageNode`.
`metadata` is `{filename: {chunk_id: (chunk_hash, storage_path)}}`;
the inner dict is an association list with Python insertion order. -/
@[ext]
structure NodeState where
  node_id : Nat
  storageDir : String
  disk : String → Option (List Nat)
  metadata : String → Option (List (Nat × String × String))

/-- The chunk storage path `self.storage_dir / filename / f"chunk_{chunk_id}.dat"`. -/
def chunkPath (storageDir filename : String) (chunkId : Nat) : String :=
  storageDir ++ "/" ++ filename ++ "/chunk_" ++ toString chunkId ++ ".dat"

/-- Python dict assignment `d[k] = v` on an association list: replace the
entry in place if `k` is present, append `(k, v)` otherwise. -/
def assocSet {α : Type} (l : List (Nat × α)) (k : Nat) (v : α) : List (Nat × α) :=
  if l.any (fun p => p.1 == k) then
    l.map (fun p => if p.1 == k then (k, v) else p)
  else l ++ [(k, v)]

/-- `StorageNode.store_chunk`: write the payload to
`chunkPath`, then record `(chunk_hash, path)` in the in-memory index.
`writeOk` models whether the `mkdir`/`open`/`write` succeed; on an
exception the `except` clause returns an error response before the index
is touched. -/
def store_chunk (writeOk : Bool) (st : NodeState) (filename : String)
    (chunk_id : Nat) (chunk_data : List Nat) (chunk_hash : String) :
    NodeState × Resp :=
  if writeOk then
    ({ st with
        disk := fun q =>
          if q = chunkPath st.storageDir filename chunk_id then some chunk_data
          else st.disk q,
        metadata := fun g =>
          if g = filename then
            some (assocSet ((st.metadata filename).getD []) chunk_id
              (chunk_hash, chunkPath st.storageDir filename chunk_id))
          else st.metadata g },
      Resp.success ("Chunk " ++ toString chunk_id ++ " stored"))
  else
    (st, Resp.error "disk write failed")

/-- The removal loop of `StorageNode.delete_file`: for each indexed chunk,
if the path exists on disk, `os.remove` it.  `removeOk` models whether
`os.remove` succeeds for a given path; the first failure raises, aborting
the loop (`false` flag) with the disk in its partially-cleared state. -/
def removeChunksLoop (removeOk : String → Bool)
    (disk : String → Option (List Nat)) :
    List (Nat × String × String) → (String → Option (List Nat)) × Bool
  | [] => (disk, true)
  | (_, _, path) :: rest =>
    match disk path with
    | none => removeChunksLoop removeOk disk rest
    | some _ =>
      if removeOk path then
        removeChunksLoop removeOk (fun q => if q = path then none else disk q) rest
      else (disk, false)

/-- `StorageNode.delete_file`: `'File not found'` when the filename is not
indexed; otherwise remove the chunk files from disk, then (only after all
removals succeeded) drop the filename from the index.  An `os.remove`
exception is caught by the `except` clause and returned as an error
response; the `del self.metadata[filename]` statement is then never
reached.  (The `rmdir` of the emptied directory is not part of the
modelled state.) -/
def delete_file (removeOk : String → Bool) (st : NodeState)
    (filename : String) : NodeState × Resp :=
  match st.metadata filename with
  | none => (st, Resp.error "File not found")
  | some entries =>
    let res := removeChunksLoop removeOk st.disk entries
    if res.2 then
      ({ st with
          disk := res.1,
          metadata := fun g => if g = filename then none else st.metadata g },
        Resp.success "File deleted")
    else
      ({ st with disk := res.1 }, Resp.error "disk removal failed")

/-- A registered node dictionary `{'node_id': ..., 'host': ..., 'port': ...}`. -/
structure NodeInfo where
  node_id : Nat
  host : String
  port : Nat
deriving DecidableEq, Repr

/-- The replica selection of `DistributedStorageClient.upload_file`:
`[self.nodes[(chunk_id + i) % len(self.nodes)] for i in range(min(replication_factor, len(self.nodes)))]`. -/
def targetNodes (nodes : List NodeInfo) (replication_factor : Nat)
    (chunk_id : Nat) : List NodeInfo :=
  (List.range (min replication_factor nodes.length)).filterMap
    (fun i => nodes[(chunk_id + i) % nodes.length]?)

/-- `DistributedStorageClient.upload_file`: fail (returning `False`, no
mapping) when no nodes are registered; otherwise partition the file, send
a STORE request for each chunk to each node of its replica set, record in
`file_mapping[filename]` exactly the node ids that acknowledged success,
and return `True` unconditionally.  `storeResp node chunk_id` is the
response `send_request` obtains for the STORE of that chunk at that node
(an unreachable node yields an error response). -/
def upload_file (hashB : List Nat → String)
    (storeResp : NodeInfo → Nat → Resp) (nodes : List NodeInfo)
    (replication_factor chunkSize : Nat) (data : List Nat) :
    Option (List (Nat × List Nat)) × Bool :=
  match nodes with
  | [] => (none, false)
  | _ :: _ =>
    let chunks := partition_file hashB chunkSize data
    let mapping := chunks.map (fun ch =>
      (ch.1, (targetNodes nodes replication_factor ch.1).filterMap
        (fun n => if (storeResp n ch.1).isSuccess then some n.node_id else none)))
    (some mapping, true)

/-- A RETRIEVE response: `{'status': 'success', 'chunk_data': ...,
'chunk_hash': ...}` or an error (unreachable node, `'Chunk not found'`,
or a node-side read failure all arrive as error responses). -/
inductive RetResp where
  | success (chunk_data : List Nat) (chunk_hash : String)
  | error (message : String)
deriving DecidableEq, Repr

/-- One iteration of the replica loop in
`DistributedStorageClient.download_file` for replica id `nid`: look the
node up in the registered pool (`next(...)`, skipping unknown ids), send
RETRIEVE, and on a success response verify the payload against the
returned digest.  Returns the accepted payload, or `none` if this replica
is skipped, fails, or fails verification. -/
def tryOne (hashB : List Nat → String) (resp : NodeInfo → RetResp)
    (pool : List NodeInfo) (nid : Nat) : Option (List Nat) :=
  match pool.find? (fun n => n.node_id == nid) with
  | none => none
  | some node =>
    match resp node with
    | .success d h => if verify_chunk hashB d h then some d else none
    | .error _ => none

/-- The replica loop of `download_file` for one chunk: try the recorded
node ids in order, accepting the first verified payload (`break`),
otherwise falling through to the next replica (`continue`). -/
def tryReplicas (hashB : List Nat → String) (resp : NodeInfo → RetResp)
    (pool : List NodeInfo) : List Nat → Option (List Nat)
  | [] => none
  | nid :: rest =>
    match tryOne hashB resp pool nid with
    | some d => some d
    | none => tryReplicas hashB resp pool rest

/-- The chunk loop of `download_file`: for each `(chunk_id, node_ids)` in
order, run the replica loop; if a chunk cannot be retrieved
(`chunk_retrieved` stays false) return failure immediately, contacting no
further chunks. -/
def downloadChunks (hashB : List Nat → String)
    (resp : NodeInfo → Nat → RetResp) (pool : List NodeInfo) :
    List (Nat × List Nat) → Option (List (Nat × List Nat))
  | [] => some []
  | (chunk_id, node_ids) :: rest =>
    match tryReplicas hashB (fun n => resp n chunk_id) pool node_ids with
    | none => none
    | some d =>
      match downloadChunks hashB resp pool rest with
      | none => none
      | some cs => some ((chunk_id, d) :: cs)

/-- `DistributedStorageClient.download_file`: fail when the filename has
no descriptor; otherwise iterate the chunk ids in sorted order, retrieve
each chunk from its first verifying replica, and only on full success
reassemble and write the output file.  The returned value is `some` of
the written output file's bytes, or `none` when the download fails (in
which case the `open(output_path, 'wb')` in `reassemble_file` is never
reached, so no output file is written). -/
def download_file (hashB : List Nat → String)
    (resp : NodeInfo → Nat → RetResp) (pool : List NodeInfo)
    (fileMapping : Option (List (Nat × List Nat))) : Option (List Nat) :=
  match fileMapping with
  | none => none
  | some cm =>
    match downloadChunks hashB resp pool (cm.mergeSort keyLe) with
    | none => none
    | some pairs => some (reassemble_file pairs)

/-- A concrete node state used to exercise `delete_file`: one file `"f"`
with one stored chunk at `"/data/f/chunk_0.dat"`. -/
def c7State : NodeState where
  node_id := 0
  storageDir := "/data"
  disk := fun p => if p = "/data/f/chunk_0.dat" then some [65] else none
  metadata := fun g => if g = "f" then some [(0, "h", "/data/f/chunk_0.dat")] else none

/-- A concrete digest function for download scenarios: every payload
hashes to `"X"`. -/
def c5Hash : List Nat → String := fun _ => "X"

/-- A concrete two-node pool for download scenarios. -/
def c5Pool : List NodeInfo := [⟨0, "a", 1⟩, ⟨1, "b", 2⟩]

/-- A concrete network in which node 0 is unreachable and node 1 returns
payload `[9]` with a matching digest. -/
def c5Resp : NodeInfo → RetResp := fun n =>
  if n.node_id == 0 then RetResp.error "down" else RetResp.success [9] "X"

/-- A concrete network in which every RETRIEVE fails. -/
def c5RespDown : NodeInfo → Nat → RetResp := fun _ _ => RetResp.error "down"

/-- Index characterization of the partition loop: the `k`-th produced
chunk is the `k`-th `chunkSize`-byte window of the remaining data,
numbered `i + k`. -/
theorem partitionFrom_getElem (hashB : List Nat → String) {C : Nat} (hC : 0 < C)
    (i k : Nat) (data : List Nat) :
    (partitionFrom hashB C i data)[k]? =
      if C * k < data.length then
        some (i + k, (data.drop (C * k)).take C, hashB ((data.drop (C * k)).take C))
      else none := by
  induction k generalizing i data with
  | zero =>
    rw [partitionFrom]
    rcases eq_or_ne data [] with rfl | hne
    · simp [hC.ne']
    · rw [dif_neg (by simp [hC.ne', hne])]
      simp [List.length_pos.mpr hne]
  | succ k ih =>
    rw [partitionFrom]
    rcases eq_or_ne data [] with rfl | hne
    · simp [hC.ne']
    · rw [dif_neg (by simp [hC.ne', hne])]
      simp only [List.getElem?_cons_succ]
      rw [ih (i + 1) (data.drop C)]
      rw [List.length_drop, List.drop_drop]
      have h2 : C + C * k = C * (k + 1) := by rw [Nat.mul_succ]; omega
      have h3 : i + 1 + k = i + (k + 1) := by omega
      rw [h2, h3]
      by_cases hc : C * (k + 1) < data.length
      · rw [if_pos (by rw [Nat.lt_sub_iff_add_lt]; omega), if_pos hc]
      · rw [if_neg (by rw [Nat.lt_sub_iff_add_lt]; omega), if_neg hc]

/-- Concatenating the windows produced by the partition loop gives back
the input bytes. -/
theorem flatten_partitionFrom (hashB : List Nat → String) {C : Nat} (hC : 0 < C)
    (i : Nat) (data : List Nat) :
    ((partitionFrom hashB C i data).map (fun p => p.2.1)).flatten = data := by
  rw [partitionFrom]
  by_cases h : C = 0 ∨ data = []
  · rw [dif_pos h]
    rcases h with h | h
    · exact absurd h hC.ne'
    · simp [h]
  · rw [dif_neg h]
    simp only [List.map_cons, List.flatten_cons]
    rw [flatten_partitionFrom hashB hC (i + 1) (data.drop C)]
    exact List.take_append_drop C data
termination_by data.length
decreasing_by
  push_neg at h
  have h1 : 0 < data.length := List.length_pos.mpr h.2
  simp only [List.length_drop]
  omega

/-- Every chunk id produced by the loop is at least the starting counter. -/
theorem partitionFrom_fst_ge (hashB : List Nat → String) (C i : Nat)
    (data : List Nat) : ∀ p ∈ partitionFrom hashB C i data, i ≤ p.1 := by
  rw [partitionFrom]
  by_cases h : C = 0 ∨ data = []
  · rw [dif_pos h]; intro p hp; exact absurd hp (List.not_mem_nil p)
  · rw [dif_neg h]
    intro p hp
    rcases List.mem_cons.mp hp with rfl | hp
    · exact Nat.le_refl i
    · exact Nat.le_of_lt (partitionFrom_fst_ge hashB C (i + 1) (data.drop C) p hp)
termination_by data.length
decreasing_by
  push_neg at h
  have h1 : 0 < data.length := List.length_pos.mpr h.2
  simp only [List.length_drop]
  omega

/-- Chunk ids come out strictly increasing. -/
theorem partitionFrom_pairwise (hashB : List Nat → String) (C i : Nat)
    (data : List Nat) :
    List.Pairwise (fun a b => a.1 < b.1) (partitionFrom hashB C i data) := by
  rw [partitionFrom]
  by_cases h : C = 0 ∨ data = []
  · rw [dif_pos h]; exact List.Pairwise.nil
  · rw [dif_neg h]
    refine List.Pairwise.cons ?_ (partitionFrom_pairwise hashB C (i + 1) (data.drop C))
    intro p hp
    have := partitionFrom_fst_ge hashB C (i + 1) (data.drop C) p hp
    omega
termination_by data.length
decreasing_by
  push_neg at h
  have h1 : 0 < data.length := List.length_pos.mpr h.2
  simp only [List.length_drop]
  omega

/-- Claim C1: for every file content and every chunk size `C > 0`,
reassembling the complete set of chunks produced by `partition_file` with
chunk size `C` yields exactly the original file bytes (all sizes `S`,
including `S = 0`, `S < C`, `S = C`, non-multiples and exact multiples of
`C`, are instances of the universally quantified `data`). -/
theorem C1_roundtrip (hashB : List Nat → String) (C : Nat) (data : List Nat)
    (hC : 0 < C) :
    reassemble_file ((partition_file hashB C data).map (fun p => (p.1, p.2.1)))
      = data := by
  rw [reassemble_file, partition_file]
  have hpw : List.Pairwise (fun a b => keyLe a b = true)
      ((partitionFrom hashB C 0 data).map (fun p => (p.1, p.2.1))) := by
    rw [List.pairwise_map]
    refine (partitionFrom_pairwise hashB C 0 data).imp ?_
    intro a b hab
    simp only [keyLe, decide_eq_true_eq]
    omega
  rw [List.mergeSort_of_sorted hpw, List.map_map]
  exact flatten_partitionFrom hashB hC 0 data

/-- Witness for C1 at chunk size 4 and the 9-byte file `"ABCDEFGHI"`. -/
theorem C1_roundtrip_witness :
    0 < 4 ∧ reassemble_file ((partition_file (fun _ => "d") 4
      [65, 66, 67, 68, 69, 70, 71, 72, 73]).map (fun p => (p.1, p.2.1)))
      = [65, 66, 67, 68, 69, 70, 71, 72, 73] :=
  ⟨by decide, C1_roundtrip (fun _ => "d") 4 _ (by decide)⟩

/-- Claim C9: `partition_file` reads the input in `C`-byte windows in
order until exhausted, numbering chunks by 0-based read order; the `k`-th
chunk is exactly window `k`, every payload has length at most `C` and is
never empty; and splitting the 9-byte content `"ABCDEFGHI"` with chunk
size 4 yields `(0,"ABCD"), (1,"EFGH"), (2,"I")`. -/
theorem C9_split_windows (hashB : List Nat → String) (C : Nat)
    (data : List Nat) (hC : 0 < C) :
    (∀ k, (partition_file hashB C data)[k]? =
        if C * k < data.length then
          some (k, (data.drop (C * k)).take C, hashB ((data.drop (C * k)).take C))
        else none)
    ∧ (∀ p ∈ partition_file hashB C data, p.2.1.length ≤ C ∧ p.2.1 ≠ [])
    ∧ (partition_file hashB 4 [65, 66, 67, 68, 69, 70, 71, 72, 73]).map
        (fun p => (p.1, p.2.1))
        = [(0, [65, 66, 67, 68]), (1, [69, 70, 71, 72]), (2, [73])] := by
  refine ⟨?_, ?_, ?_⟩
  · intro k
    simpa [partition_file] using partitionFrom_getElem hashB hC 0 k data
  · intro p hp
    rcases List.mem_iff_getElem?.mp hp with ⟨k, hk⟩
    rw [partition_file, partitionFrom_getElem hashB hC 0 k data] at hk
    by_cases hc : C * k < data.length
    · rw [if_pos hc] at hk
      obtain rfl : (0 + k, (data.drop (C * k)).take C,
          hashB ((data.drop (C * k)).take C)) = p := Option.some.inj hk
      constructor
      · simp only [List.length_take]
        omega
      · intro hnil
        rw [List.take_eq_nil_iff] at hnil
        rcases hnil with h | h
        · exact hC.ne' h
        · rw [List.drop_eq_nil_iff] at h
          omega
    · rw [if_neg hc] at hk
      exact absurd hk (by simp)
  · simp [partition_file, partitionFrom]

/-- Witness for C9 at chunk size 3 and a 4-byte input. -/
theorem C9_split_windows_witness :
    0 < 3 ∧ (∀ p ∈ partition_file (fun _ => "d") 3 [1, 2, 3, 4],
      p.2.1.length ≤ 3 ∧ p.2.1 ≠ []) :=
  ⟨by decide, (C9_split_windows (fun _ => "d") 3 [1, 2, 3, 4] (by decide)).2.1⟩

/-- Claim C10: on a chunk list with duplicate sequence ids,
`reassemble_file` writes the payloads of all entries (duplicates
included) in non-decreasing sequence-id order: the output is the
concatenation of the payloads of some permutation of the input whose ids
are sorted, and it neither selects one entry per id nor rejects the
input.  The concrete duplicate input `[(0,"A"), (1,"B"), (0,"C")]`
produces `"ACB"`: both entries with id 0 are written (in input order,
since the sort is stable), then the entry with id 1. -/
theorem C10_reassemble_duplicates (chunks : List (Nat × List Nat)) :
    (∃ l : List (Nat × List Nat), l.Perm chunks
      ∧ (l.map Prod.fst).Sorted (· ≤ ·)
      ∧ reassemble_file chunks = (l.map Prod.snd).flatten)
    ∧ reassemble_file [(0, [65]), (1, [66]), (0, [67])] = [65, 67, 66] := by
  constructor
  · refine ⟨chunks.mergeSort keyLe, List.mergeSort_perm chunks keyLe, ?_, rfl⟩
    have htrans : ∀ a b c : Nat × List Nat,
        keyLe a b = true → keyLe b c = true → keyLe a c = true := by
      intro a b c
      simp only [keyLe, decide_eq_true_eq]
      omega
    have htotal : ∀ a b : Nat × List Nat, (keyLe a b || keyLe b a) = true := by
      intro a b
      simp only [keyLe, Bool.or_eq_true, decide_eq_true_eq]
      exact Nat.le_total a.1 b.1
    have hs := List.sorted_mergeSort htrans htotal chunks
    rw [List.Sorted, List.pairwise_map]
    exact hs.imp (fun h => of_decide_eq_true h)
  · simp [reassemble_file, List.mergeSort, keyLe]

/-- Claim C3 counterexample: the input `[(1, "B")]` does not cover the
contiguous range `0..1` (id 0 is missing), yet `reassemble_file`
produces the output file `"B"` instead of failing: no
`IncompleteSequenceError` (or any other failure path) exists in
`reassemble_file`. -/
theorem C3_counterexample : reassemble_file [(1, [66])] = [66] := by
  rw [reassemble_file, List.mergeSort_of_sorted (List.pairwise_singleton _ _)]
  rfl

/-- Claim C3 amended: `reassemble_file` performs no sequence-gap check:
it sorts the given chunks by sequence id and writes all their payloads to
the output file; in particular on any id-sorted input — gaps or not — the
output is exactly the concatenation of the given payloads, and no
`IncompleteSequenceError` is ever raised (the function is total). -/
theorem C3_no_gap_check (chunks : List (Nat × List Nat))
    (hs : List.Pairwise (fun a b => a.1 ≤ b.1) chunks) :
    reassemble_file chunks = (chunks.map Prod.snd).flatten := by
  have hpw : List.Pairwise (fun a b => keyLe a b = true) chunks :=
    hs.imp (fun h => decide_eq_true h)
  rw [reassemble_file, List.mergeSort_of_sorted hpw]

/-- Witness for C3 (amended) on a gapped input missing ids 0 and 2. -/
theorem C3_no_gap_check_witness :
    List.Pairwise (fun (a b : Nat × List Nat) => a.1 ≤ b.1)
      [(1, [66]), (3, [68])]
    ∧ reassemble_file [(1, [66]), (3, [68])]
        = (([(1, [66]), (3, [68])] : List (Nat × List Nat)).map Prod.snd).flatten :=
  ⟨by decide, C3_no_gap_check _ (by decide)⟩

/-- Claim C2 counterexample: one registered node that rejects every STORE
request; the single chunk of the uploaded file records zero acknowledging
nodes (`(0, [])` in the file mapping), yet `upload_file` returns `True`
to the caller. -/
theorem C2_counterexample :
    upload_file (fun _ => "H") (fun _ _ => Resp.error "node down")
      [⟨0, "localhost", 9000⟩] 2 1 [65] = (some [(0, [])], true) := by
  simp [upload_file, partition_file, partitionFrom, targetNodes, Resp.isSuccess]

/-- Claim C2 amended: `upload_file` reports failure if and only if no
storage nodes are registered; with a nonempty node pool it returns
success unconditionally, even when some (or every) chunk obtained zero
acknowledging replicas — the acknowledging subsets are still recorded in
the file mapping, but never checked. -/
theorem C2_upload_returns (hashB : List Nat → String)
    (storeResp : NodeInfo → Nat → Resp) (R C : Nat) (data : List Nat) :
    upload_file hashB storeResp [] R C data = (none, false)
    ∧ ∀ nodes : List NodeInfo, nodes ≠ [] →
        (upload_file hashB storeResp nodes R C data).2 = true := by
  refine ⟨rfl, ?_⟩
  intro nodes hne
  cases nodes with
  | nil => exact absurd rfl hne
  | cons n ns => rfl

/-- Witness for C2 (amended) with one all-rejecting node. -/
theorem C2_upload_returns_witness :
    ([(⟨0, "localhost", 9000⟩ : NodeInfo)] ≠ [])
    ∧ (upload_file (fun _ => "H") (fun _ _ => Resp.error "node down")
        [⟨0, "localhost", 9000⟩] 2 1 [65]).2 = true :=
  ⟨List.cons_ne_nil _ _,
    (C2_upload_returns (fun _ => "H") (fun _ _ => Resp.error "node down")
      2 1 [65]).2 _ (List.cons_ne_nil _ _)⟩

/-- With a nonempty pool, the replica selection is the list of nodes at
the round-robin pool indices. -/
theorem targetNodes_eq (nodes : List NodeInfo) (R cid : Nat)
    (hN : 0 < nodes.length) (hR : R ≤ nodes.length) :
    targetNodes nodes R cid = (List.range R).map
      (fun i => nodes.get ⟨(cid + i) % nodes.length, Nat.mod_lt _ hN⟩) := by
  rw [targetNodes, Nat.min_eq_left hR]
  rw [List.filterMap_congr
    (g := fun i => some (nodes.get ⟨(cid + i) % nodes.length, Nat.mod_lt _ hN⟩))
    (fun x _ => List.getElem?_eq_getElem (Nat.mod_lt _ hN))]
  exact congrFun (List.filterMap_eq_map _) _

/-- Cancelling the common shift in equal round-robin indices. -/
theorem mod_shift_inj {N R : Nat} (hR : R ≤ N) {cid i j : Nat}
    (hi : i < R) (hj : j < R)
    (h : (cid + i) % N = (cid + j) % N) : i = j := by
  have h1 : i % N = j % N := Nat.ModEq.add_left_cancel' cid h
  rwa [Nat.mod_eq_of_lt (lt_of_lt_of_le hi hR),
    Nat.mod_eq_of_lt (lt_of_lt_of_le hj hR)] at h1

/-- Claim C4: for replication factor `R` at most the pool size, the
replica set chosen for a chunk is exactly the nodes at pool indices
`(sequenceId + i) % N` for `i < R`; it has exactly `R` entries whose node
identifiers are pairwise distinct (node ids are unique within the
coordinator's view, the `hids` hypothesis); and with 3 registered nodes
(ids 0,1,2) and `R = 2`, chunk 0 goes to nodes `[0,1]`, chunk 1 to
`[1,2]`, chunk 2 to `[2,0]`. -/
theorem C4_replica_placement (nodes : List NodeInfo) (R cid : Nat)
    (hN : 0 < nodes.length) (hR : R ≤ nodes.length)
    (hids : (nodes.map NodeInfo.node_id).Nodup) :
    (targetNodes nodes R cid).length = R
    ∧ (∀ i, i < R →
        (targetNodes nodes R cid)[i]? = nodes[(cid + i) % nodes.length]?)
    ∧ ((targetNodes nodes R cid).map NodeInfo.node_id).Nodup
    ∧ ((targetNodes [⟨0, "localhost", 9001⟩, ⟨1, "localhost", 9002⟩,
          ⟨2, "localhost", 9003⟩] 2 0).map NodeInfo.node_id = [0, 1]
      ∧ (targetNodes [⟨0, "localhost", 9001⟩, ⟨1, "localhost", 9002⟩,
          ⟨2, "localhost", 9003⟩] 2 1).map NodeInfo.node_id = [1, 2]
      ∧ (targetNodes [⟨0, "localhost", 9001⟩, ⟨1, "localhost", 9002⟩,
          ⟨2, "localhost", 9003⟩] 2 2).map NodeInfo.node_id = [2, 0]) := by
  rw [targetNodes_eq nodes R cid hN hR]
  refine ⟨by simp, ?_, ?_, by decide, by decide, by decide⟩
  · intro i hi
    rw [List.getElem?_map, List.getElem?_range hi]
    simp [List.getElem?_eq_getElem (Nat.mod_lt _ hN)]
  · rw [List.map_map]
    refine List.Nodup.map_on ?_ (List.nodup_range R)
    intro x hx y hy hxy
    rw [List.mem_range] at hx hy
    have hx' : (cid + x) % nodes.length < nodes.length := Nat.mod_lt _ hN
    have hy' : (cid + y) % nodes.length < nodes.length := Nat.mod_lt _ hN
    have h1 : (nodes.map NodeInfo.node_id).get ⟨(cid + x) % nodes.length, by
          simpa using hx'⟩
        = (nodes.map NodeInfo.node_id).get ⟨(cid + y) % nodes.length, by
          simpa using hy'⟩ := by
      rw [List.get_map, List.get_map]
      exact hxy
    have h2 := (hids.get_inj_iff).mp h1
    exact mod_shift_inj hR hx hy (congrArg Fin.val h2)

/-- Witness for C4 at the 3-node pool with replication factor 2. -/
theorem C4_replica_placement_witness :
    (0 < ([⟨0, "localhost", 9001⟩, ⟨1, "localhost", 9002⟩,
        ⟨2, "localhost", 9003⟩] : List NodeInfo).length)
    ∧ (2 ≤ ([⟨0, "localhost", 9001⟩, ⟨1, "localhost", 9002⟩,
        ⟨2, "localhost", 9003⟩] : List NodeInfo).length)
    ∧ (([⟨0, "localhost", 9001⟩, ⟨1, "localhost", 9002⟩,
        ⟨2, "localhost", 9003⟩] : List NodeInfo).map NodeInfo.node_id).Nodup
    ∧ (targetNodes [⟨0, "localhost", 9001⟩, ⟨1, "localhost", 9002⟩,
        ⟨2, "localhost", 9003⟩] 2 0).length = 2 :=
  ⟨by decide, by decide, by decide,
    (C4_replica_placement _ 2 0 (by decide) (by decide) (by decide)).1⟩

/-- If some chunk of the list has no replica yielding a verified payload,
the chunk loop reports failure. -/
theorem downloadChunks_eq_none (hashB : List Nat → String)
    (resp : NodeInfo → Nat → RetResp) (pool : List NodeInfo)
    (l : List (Nat × List Nat))
    (h : ∃ p ∈ l, tryReplicas hashB (fun n => resp n p.1) pool p.2 = none) :
    downloadChunks hashB resp pool l = none := by
  induction l with
  | nil =>
    obtain ⟨p, hp, _⟩ := h
    exact absurd hp (List.not_mem_nil p)
  | cons hd tl ih =>
    obtain ⟨p, hp, hnone⟩ := h
    obtain ⟨cid, nids⟩ := hd
    rcases List.mem_cons.mp hp with rfl | hp
    · simp only [downloadChunks]
      rw [hnone]
    · simp only [downloadChunks]
      cases htr : tryReplicas hashB (fun n => resp n cid) pool nids with
      | none => rfl
      | some d => rw [ih ⟨p, hp, hnone⟩]

/-- Claim C5: the download coordinator iterates each chunk's recorded
replicas in recorded order and accepts the first one whose payload passes
digest verification, never contacting the replicas after it (the result
does not depend on `post`); and if for some chunk no recorded replica
yields a verified payload, `download_file` returns failure and no output
file is written (the `none` result — reassembly and the output-file write
are never reached). -/
theorem C5_download_first_verified :
    (∀ (hashB : List Nat → String) (resp : NodeInfo → RetResp)
        (pool : List NodeInfo) (pre post : List Nat) (nid : Nat) (d : List Nat),
        (∀ x ∈ pre, tryOne hashB resp pool x = none) →
        tryOne hashB resp pool nid = some d →
        tryReplicas hashB resp pool (pre ++ nid :: post) = some d)
    ∧ (∀ (hashB : List Nat → String) (resp : NodeInfo → Nat → RetResp)
        (pool : List NodeInfo) (cm : List (Nat × List Nat)),
        (∃ p ∈ cm, tryReplicas hashB (fun n => resp n p.1) pool p.2 = none) →
        download_file hashB resp pool (some cm) = none) := by
  constructor
  · intro hashB resp pool pre post nid d hpre hnid
    induction pre with
    | nil => simp only [List.nil_append, tryReplicas, hnid]
    | cons x xs ih =>
      have hx : tryOne hashB resp pool x = none :=
        hpre x (List.mem_cons_self x xs)
      simp only [List.cons_append, tryReplicas, hx]
      exact ih (fun y hy => hpre y (List.mem_cons_of_mem x hy))
  · intro hashB resp pool cm h
    obtain ⟨p, hp, hnone⟩ := h
    simp only [download_file]
    rw [downloadChunks_eq_none hashB resp pool _
      ⟨p, List.mem_mergeSort.mpr hp, hnone⟩]

/-- Witness for C5: node 0 is down and node 1 verifies, so the replica
loop accepts node 1 and ignores the (unregistered) trailing replica 5;
and with every RETRIEVE failing, the download of a one-chunk mapping
returns failure. -/
theorem C5_download_first_verified_witness :
    ((∀ x ∈ [0], tryOne c5Hash c5Resp c5Pool x = none)
      ∧ tryOne c5Hash c5Resp c5Pool 1 = some [9]
      ∧ tryReplicas c5Hash c5Resp c5Pool ([0] ++ 1 :: [5]) = some [9])
    ∧ ((∃ p ∈ [((0 : Nat), [(0 : Nat)])],
          tryReplicas c5Hash (fun n => c5RespDown n p.1) c5Pool p.2 = none)
      ∧ download_file c5Hash c5RespDown c5Pool (some [(0, [0])]) = none) :=
  ⟨⟨by decide, by decide,
      C5_download_first_verified.1 c5Hash c5Resp c5Pool [0] [5] 1 [9]
        (by decide) (by decide)⟩,
    ⟨by decide,
      C5_download_first_verified.2 c5Hash c5RespDown c5Pool [(0, [0])]
        (by decide)⟩⟩

/-- Looking up a key right after a dict assignment returns the assigned
value. -/
theorem lookup_assocSet {α : Type} (l : List (Nat × α)) (k : Nat) (v : α) :
    (assocSet l k v).lookup k = some v := by
  induction l with
  | nil => simp [assocSet, List.lookup]
  | cons hd tl ih =>
    obtain ⟨k1, v1⟩ := hd
    rw [assocSet]
    by_cases h1 : k1 = k
    · subst h1
      rw [if_pos (by simp)]
      simp only [List.map_cons]
      rw [if_pos (by simp)]
      simp [List.lookup]
    · have hb : (((k1, v1) : Nat × α).1 == k) = false :=
        beq_eq_false_iff_ne.mpr h1
      rw [List.any_cons, hb, Bool.false_or]
      by_cases h2 : tl.any (fun p => p.1 == k)
      · rw [if_pos h2]
        simp only [List.map_cons, hb, Bool.false_eq_true, if_false]
        rw [List.lookup_cons,
          show (k == k1) = false from beq_eq_false_iff_ne.mpr (Ne.symm h1)]
        have := ih
        rwa [assocSet, if_pos h2] at this
      · rw [if_neg h2, List.cons_append, List.lookup_cons,
          show (k == k1) = false from beq_eq_false_iff_ne.mpr (Ne.symm h1)]
        have := ih
        rwa [assocSet, if_neg h2] at this

/-- A second dict assignment to the same key supersedes the first. -/
theorem assocSet_assocSet {α : Type} (l : List (Nat × α)) (k : Nat)
    (v1 v2 : α) :
    assocSet (assocSet l k v1) k v2 = assocSet l k v2 := by
  by_cases h : l.any (fun p => p.1 == k)
  · have e1 : assocSet l k v1
        = l.map (fun p => if p.1 == k then (k, v1) else p) := by
      rw [assocSet, if_pos h]
    have e2 : assocSet l k v2
        = l.map (fun p => if p.1 == k then (k, v2) else p) := by
      rw [assocSet, if_pos h]
    rw [assocSet, e1, e2]
    rw [if_pos ?hany]
    case hany =>
      rw [List.any_map]
      obtain ⟨x, hx, hxk⟩ := List.any_eq_true.mp h
      exact List.any_eq_true.mpr ⟨x, hx, by simp [Function.comp, hxk]⟩
    rw [List.map_map]
    refine List.map_congr_left ?_
    intro a _
    by_cases ha : (a.1 == k) = true
    · simp [Function.comp, ha]
    · simp [Function.comp, ha]
  · have e1 : assocSet l k v1 = l ++ [(k, v1)] := by
      rw [assocSet, if_neg h]
    have e2 : assocSet l k v2 = l ++ [(k, v2)] := by
      rw [assocSet, if_neg h]
    rw [assocSet, e1, e2]
    rw [if_pos (by rw [List.any_append]; simp)]
    rw [List.map_append]
    have hnone : ∀ p ∈ l, (p.1 == k) = false := by
      intro p hp
      by_contra hc
      exact h (List.any_eq_true.mpr
        ⟨p, hp, by revert hc; cases (p.1 == k) <;> simp⟩)
    have hl : l.map (fun p => if p.1 == k then ((k, v2) : Nat × α) else p) = l := by
      rw [List.map_congr_left (g := id) ?_, List.map_id]
      intro p hp
      simp [hnone p hp]
    rw [hl]
    simp

/-- Claim C6: if the disk write fails, `store_chunk` returns an error
response and leaves the node state — in particular the in-memory index —
unchanged for every key; and on a successful write the index is updated
for `(filename, chunk_id)`, pointing at the digest and the path that was
just written. -/
theorem C6_store_write_failure (st : NodeState) (filename : String)
    (chunk_id : Nat) (chunk_data : List Nat) (chunk_hash : String) :
    ((store_chunk false st filename chunk_id chunk_data chunk_hash).2.isError = true
      ∧ (store_chunk false st filename chunk_id chunk_data chunk_hash).1 = st)
    ∧ (∃ es, (store_chunk true st filename chunk_id chunk_data chunk_hash).1.metadata
          filename = some es
        ∧ es.lookup chunk_id
            = some (chunk_hash, chunkPath st.storageDir filename chunk_id)) := by
  refine ⟨⟨rfl, rfl⟩,
    ⟨assocSet ((st.metadata filename).getD []) chunk_id
      (chunk_hash, chunkPath st.storageDir filename chunk_id), ?_,
      lookup_assocSet _ _ _⟩⟩
  simp [store_chunk]

/-- Claim C8: `store_chunk` is idempotent with last-write-wins semantics:
storing a second payload and digest under the same `(filename, chunk_id)`
key overwrites both the on-disk content and the index entry, so the node
state after the two stores equals the state after a single store of the
second request. -/
theorem C8_store_last_write_wins (st : NodeState) (filename : String)
    (chunk_id : Nat) (d1 : List Nat) (g1 : String) (d2 : List Nat)
    (g2 : String) :
    (store_chunk true (store_chunk true st filename chunk_id d1 g1).1
        filename chunk_id d2 g2).1
      = (store_chunk true st filename chunk_id d2 g2).1 := by
  simp only [store_chunk, if_true]
  refine NodeState.ext rfl rfl ?_ ?_
  · funext q
    by_cases hq : q = chunkPath st.storageDir filename chunk_id
    · simp [hq]
    · simp [hq]
  · funext g
    by_cases hg : g = filename
    · subst hg
      simp [assocSet_assocSet]
    · simp [hg]

/-- Claim C7 counterexample: on `c7State` the removal of the only chunk
file of `"f"` fails; `delete_file` surfaces an error, but the index entry
for `"f"` is NOT cleared — the `except` clause returns before
`del self.metadata[filename]` runs, so the key is still tracked,
contradicting the claim that the index is cleared on a mid-operation
failure. -/
theorem C7_counterexample :
    (delete_file (fun _ => false) c7State "f").2.isError = true
    ∧ (delete_file (fun _ => false) c7State "f").1.metadata "f"
        = some [(0, "h", "/data/f/chunk_0.dat")] := by
  constructor <;> rfl

/-- Claim C7 amended: a node-side delete of an unindexed file returns the
not-found error; and when removing some chunk's on-disk payload fails
mid-operation, `delete_file` surfaces an error to the caller and the
index entries for the file are retained unchanged (the key remains
tracked) — the index is cleared only when every removal succeeded. -/
theorem C7_delete_failure_keeps_index (removeOk : String → Bool)
    (st : NodeState) (filename : String) :
    (st.metadata filename = none →
      delete_file removeOk st filename = (st, Resp.error "File not found"))
    ∧ (∀ entries, st.metadata filename = some entries →
        (removeChunksLoop removeOk st.disk entries).2 = false →
        (delete_file removeOk st filename).2.isError = true
        ∧ (delete_file removeOk st filename).1.metadata = st.metadata) := by
  constructor
  · intro h
    simp only [delete_file, h]
  · intro entries h hfail
    simp [delete_file, h, hfail, Resp.isError]

/-- Witness for C7 (amended): the not-found branch at the untracked name
`"g"`, and the failing-removal branch at `"f"` on `c7State`. -/
theorem C7_delete_failure_keeps_index_witness :
    (c7State.metadata "g" = none
      ∧ delete_file (fun _ => false) c7State "g"
          = (c7State, Resp.error "File not found"))
    ∧ (c7State.metadata "f" = some [(0, "h", "/data/f/chunk_0.dat")]
      ∧ (removeChunksLoop (fun _ => false) c7State.disk
          [(0, "h", "/data/f/chunk_0.dat")]).2 = false
      ∧ ((delete_file (fun _ => false) c7State "f").2.isError = true
        ∧ (delete_file (fun _ => false) c7State "f").1.metadata
            = c7State.metadata)) :=
  ⟨⟨by rfl, (C7_delete_failure_keeps_index (fun _ => false) c7State "g").1 (by rfl)⟩,
    ⟨by rfl, by rfl,
      (C7_delete_failure_keeps_index (fun _ => false) c7State "f").2
        [(0, "h", "/data/f/chunk_0.dat")] (by rfl) (by rfl)⟩⟩

end DropBox
